import Mathlib

/-!
Verification development for the oto-storage value pipeline
(`src/index.ts`).  The library exposes a proxy over a synchronous
key/value string store; this file gives a shallow embedding of the
value-transformation pipeline and of the proxy traps, and proves the
specified properties about them.

Modelling conventions (host-language semantics made explicit):

* `JVal` is the type of JavaScript runtime values reachable by the
  library: `undefined`, `null`, booleans, numbers (integral, which is
  all the code ever constructs or compares), strings, arrays and plain
  objects.  Objects are association lists looked up at the first
  matching key; JavaScript objects have unique keys, so lists with a
  duplicated key are outside the image of the translation and behave as
  if the later duplicate were shadowed.
* `JStr` models JavaScript strings as seen by this code: a string is
  either the canonical `JSON.stringify` text of a value (`ofJson v`) or
  a string on which `JSON.parse` throws (`raw s`).  `JSON.stringify` is
  modelled as the injection `ofJson` and `JSON.parse` as its partial
  inverse; this is exact for values free of `undefined`
  (see `isJsonRep`).  `JSON.stringify undefined` is not a string; the
  DOM storage `setItem` coerces it to the text "undefined", which does
  not parse, hence the `raw "undefined"` case of `stringify`.
* Exceptions are modelled with `Except Unit`; every call site of a
  throwing operation in the source is wrapped in `try`/`catch`, and the
  embedding threads the same outcomes.  `Date.now()` is an explicit
  `now : Int` argument.
* Prototype-chain properties (`"toString" in obj`, array methods) are
  outside the model: `in`-checks and `Object.keys` see own properties
  only, as the mapping data model of the spec prescribes.
-/

namespace Oto

mutual
/-- JavaScript runtime values handled by the pipeline. -/
inductive JVal : Type where
  | undefined
  | null
  | bool (b : Bool)
  | num (n : Int)
  | str (s : JStr)
  | arr (xs : List JVal)
  | obj (fs : List (String × JVal))
/-- JavaScript strings as the pipeline distinguishes them: canonical
JSON text of a value, or text on which `JSON.parse` throws. -/
inductive JStr : Type where
  | ofJson (v : JVal)
  | raw (s : String)
end

/-- Property lookup on the field list of an object (first match). -/
def getF : List (String × JVal) → String → Option JVal
  | [], _ => none
  | (k, v) :: fs, key => if k = key then some v else getF fs key

/-- Property read defaulting to `undefined`, as `o[key]` does. -/
def getD (fs : List (String × JVal)) (key : String) : JVal :=
  match getF fs key with
  | some v => v
  | none => .undefined

/-- Key-presence check, as `key in o` on own properties. -/
def hasF (fs : List (String × JVal)) (key : String) : Bool :=
  (getF fs key).isSome

/-- Property assignment `o[key] = v`: update in place or append. -/
def setF : List (String × JVal) → String → JVal → List (String × JVal)
  | [], key, v => [(key, v)]
  | (k, w) :: fs, key, v =>
      if k = key then (k, v) :: fs else (k, w) :: setF fs key v

/-- JavaScript truthiness of a value. -/
def truthy : JVal → Bool
  | .undefined => false
  | .null => false
  | .bool b => b
  | .num n => decide (n ≠ 0)
  | .str (.raw t) => decide (t ≠ "")
  | .str (.ofJson _) => true
  | .arr _ => true
  | .obj _ => true

def isUndefined : JVal → Bool
  | .undefined => true
  | _ => false

def isNullOrUndef : JVal → Bool
  | .undefined => true
  | .null => true
  | _ => false

/-- Test `typeof v === "object"` for non-null values (arrays included). -/
def isObjTypeof : JVal → Bool
  | .obj _ => true
  | .arr _ => true
  | _ => false

def isArr : JVal → Bool
  | .arr _ => true
  | _ => false

/-- Decimal digits to a number, most significant first. -/
def digitsToNat : List Char → Nat → Option Nat
  | [], acc => some acc
  | c :: cs, acc =>
      if c.isDigit then digitsToNat cs (acc * 10 + (c.toNat - 48)) else none

/-- Canonical array-index reading of a property key, as JavaScript
array indexing treats string keys: a nonempty digit string with no
leading zero (except "0" itself). -/
def natIndex (s : String) : Option Nat :=
  match s.data with
  | [] => none
  | ['0'] => some 0
  | '0' :: _ :: _ => none
  | cs => digitsToNat cs 0

/-- Property read `v[key]` on an arbitrary value: object field, array
element at a canonical index, `undefined` otherwise.  (Boxed-primitive
and prototype properties are outside the model.) -/
def jvalGetProp (v : JVal) (key : String) : JVal :=
  match v with
  | .obj fs => getD fs key
  | .arr xs =>
      match natIndex key with
      | some i => xs.getD i .undefined
      | none => .undefined
  | _ => .undefined

/-- Property write `v[key] = x`.  On arrays, a canonical index writes
the element (holes created past the end serialize as `null`); any other
key becomes a non-index own property, which `JSON.stringify` drops, so
relative to the serialized outcome it is a no-op. -/
def jvalSetProp (v : JVal) (key : String) (x : JVal) : JVal :=
  match v with
  | .obj fs => .obj (setF fs key x)
  | .arr xs =>
      match natIndex key with
      | some i =>
          if i < xs.length then .arr (xs.set i x)
          else .arr (xs ++ List.replicate (i - xs.length) .null ++ [x])
      | none => .arr xs
  | _ => v

/-- Check `key in v` restricted to own properties (arrays own their canonical
indices and `length`). -/
def jsHasProp (v : JVal) (key : String) : Bool :=
  match v with
  | .obj fs => hasF fs key
  | .arr xs =>
      match natIndex key with
      | some i => decide (i < xs.length)
      | none => decide (key = "length")
  | _ => false

/-- Model of `Object.keys` on the values this code applies it to. -/
def jsObjectKeys (v : JVal) : List String :=
  match v with
  | .obj fs => fs.map Prod.fst
  | .arr xs => (List.range xs.length).map (fun i => toString i)
  | _ => []

mutual
/-- A value is representable in JSON text exactly when it contains no
`undefined`; on these values the `stringify`/`parse` model below is an
exact image of `JSON.stringify`/`JSON.parse`. -/
def isJsonRep : JVal → Bool
  | .undefined => false
  | .arr xs => isJsonRepList xs
  | .obj fs => isJsonRepFields fs
  | _ => true
def isJsonRepList : List JVal → Bool
  | [] => true
  | x :: xs => isJsonRep x && isJsonRepList xs
def isJsonRepFields : List (String × JVal) → Bool
  | [] => true
  | (_, v) :: fs => isJsonRep v && isJsonRepFields fs
end

mutual
/-- Function `deepMerge` from `src/index.ts` lines 29-42.  Guard order as in the
source: a null-or-undefined source returns the target, a
null-or-undefined target returns the source, a non-object or array on
either side returns the source, and two plain objects merge keywise. -/
def deepMerge (target source : JVal) : JVal :=
  match target, source with
  | t, .null => t
  | t, .undefined => t
  | .null, s => s
  | .undefined, s => s
  | .obj tf, .obj sf => .obj (mergeInto tf tf sf)
  | _, s => s
termination_by sizeOf source

/-- The `for key in source` loop of `deepMerge`: `acc` starts as the
spread copy of the target and each own source key is assigned the
recursive merge of the original target field with the source field. -/
def mergeInto (tf acc src : List (String × JVal)) : List (String × JVal) :=
  match src with
  | [] => acc
  | (k, sv) :: rest => mergeInto tf (setF acc k (deepMerge (getD tf k) sv)) rest
termination_by sizeOf src
end

/-- Model of `JSON.stringify` as the storage layer sees it: canonical text of
the value; `undefined` is not JSON and reaches the store only through
the string coercion of `setItem` as the unparseable text "undefined". -/
def stringify : JVal → JStr
  | .undefined => .raw "undefined"
  | v => .ofJson v

/-- Model of `JSON.parse`: succeeds exactly on canonical JSON text. -/
def parse : JStr → Option JVal
  | .ofJson v => some v
  | .raw _ => none

/-- Function `wrapWithTTL` from lines 44-49. -/
def wrapWithTTL (value : JVal) (ttl : Int) (now : Int) : JVal :=
  .obj [("__oto_value", value), ("__oto_expires", .num (now + ttl))]

/-- Function `unwrapWithTTL` from lines 51-64: a value is a TTL wrapper only if
both sentinel keys are present and `__oto_expires` holds a number. -/
def unwrapWithTTL (wrapped : JVal) (now : Int) : JVal × Bool :=
  match wrapped with
  | .obj fs =>
      match getF fs "__oto_expires", getF fs "__oto_value" with
      | some (.num expires), some v => (v, decide (expires < now))
      | _, _ => (wrapped, false)
  | _ => (wrapped, false)

/-- The payload of an encrypted wrapper, when the value has the exact
wrapper shape of lines 66-73 (`__oto_encrypted: true` and a string
`__oto_payload`). -/
def encPayload : JVal → Option JStr
  | .obj fs =>
      match getF fs "__oto_encrypted", getF fs "__oto_payload" with
      | some (.bool true), some (.str p) => some p
      | _, _ => none
  | _ => none

/-- Predicate `isEncryptedWrapper` from lines 66-73. -/
def isEncryptedWrapper (v : JVal) : Bool :=
  (encPayload v).isSome

/-- Caller-supplied encryption hooks (`StorageEncryptionOptions`):
synchronous string transforms that may throw, plus the migrate flag
(absent means false). -/
structure EncryptionHooks where
  encrypt : JStr → Except Unit JStr
  decrypt : JStr → Except Unit JStr
  migrate : Bool

/-- The `ttl && ttl > 0` activation guard. -/
def ttlActive : Option Int → Bool
  | some t => decide (0 < t)
  | none => false

/-- The encrypted-wrapper value built on lines 91-94 and 109-112. -/
def encryptedWrapperVal (cipherText : JStr) : JVal :=
  .obj [("__oto_encrypted", .bool true), ("__oto_payload", .str cipherText)]

/-- The `valueToStore` of lines 80-83: the TTL envelope is applied
when `ttl && ttl > 0`. -/
def ttlWrapVal (value : JVal) (ttl : Option Int) (now : Int) : JVal :=
  match ttl with
  | some t => if 0 < t then wrapWithTTL value t now else value
  | none => value

/-- Function `serializeForStorage` from lines 75-95: TTL wrap when active, then
JSON text, then optionally encrypt and wrap the ciphertext.  A throwing
encrypt hook propagates as `.error`. -/
def serializeForStorage (value : JVal) (ttl : Option Int)
    (enc : Option EncryptionHooks) (now : Int) : Except Unit JStr :=
  match enc with
  | none => .ok (stringify (ttlWrapVal value ttl now))
  | some e =>
      match e.encrypt (stringify (ttlWrapVal value ttl now)) with
      | .error u => .error u
      | .ok cipherText => .ok (stringify (encryptedWrapperVal cipherText))

/-- Record `ReadStoredResult` from lines 20-27; the absent `rawParsed` of the
parse-error branch is `undefined`. -/
structure ReadStoredResult where
  value : JVal
  rawParsed : JVal
  parseError : Bool
  decryptionError : Bool
  expired : Bool
  wasEncrypted : Bool

/-- Lines 157-180 of `readStoredValue`: the TTL check and the final
result, on the working payload after the optional decrypt step. -/
def finishRead (parsed payload : JVal) (wasEncrypted : Bool)
    (ttl : Option Int) (now : Int) : ReadStoredResult :=
  if ttlActive ttl then
    if (unwrapWithTTL payload now).2 then
      { value := .undefined, rawParsed := parsed, parseError := false,
        decryptionError := false, expired := true, wasEncrypted := wasEncrypted }
    else
      { value := (unwrapWithTTL payload now).1, rawParsed := parsed, parseError := false,
        decryptionError := false, expired := false, wasEncrypted := wasEncrypted }
  else
    { value := payload, rawParsed := parsed, parseError := false,
      decryptionError := false, expired := false, wasEncrypted := wasEncrypted }

/-- Function `readStoredValue` from lines 119-180.  On parse failure the raw
string is the value; with encryption configured and the parsed value in
wrapper shape, a throwing decrypt hook or unparseable plaintext is a
decryption error; then the TTL envelope is checked. -/
def readStoredValue (storedValue : JStr) (ttl : Option Int)
    (enc : Option EncryptionHooks) (now : Int) : ReadStoredResult :=
  match parse storedValue with
  | none =>
      { value := .str storedValue, rawParsed := .undefined, parseError := true,
        decryptionError := false, expired := false, wasEncrypted := false }
  | some parsed =>
      match enc with
      | none => finishRead parsed parsed false ttl now
      | some e =>
          match encPayload parsed with
          | none => finishRead parsed parsed false ttl now
          | some pay =>
              match e.decrypt pay with
              | .error _ =>
                  { value := .undefined, rawParsed := parsed, parseError := false,
                    decryptionError := true, expired := false, wasEncrypted := true }
              | .ok plainText =>
                  match parse plainText with
                  | none =>
                      { value := .undefined, rawParsed := parsed, parseError := false,
                        decryptionError := true, expired := false, wasEncrypted := true }
                  | some payload => finishRead parsed payload true ttl now

/-- The physical store: entries, a quota flag (`setOk = false` makes
`setItem` throw), and a counter of `setItem` invocations. -/
structure Store where
  entries : List (String × JStr)
  setOk : Bool
  writeCalls : Nat

def lookupS : List (String × JStr) → String → Option JStr
  | [], _ => none
  | (k, v) :: es, key => if k = key then some v else lookupS es key

def putEntry : List (String × JStr) → String → JStr → List (String × JStr)
  | [], key, v => [(key, v)]
  | (k, w) :: es, key, v =>
      if k = key then (k, v) :: es else (k, w) :: putEntry es key v

def dropEntry (es : List (String × JStr)) (key : String) : List (String × JStr) :=
  es.filter (fun e => !(e.1 == key))

def Store.getItem (st : Store) (key : String) : Option JStr :=
  lookupS st.entries key

/-- Operation `setItem`: the boolean is success; a quota failure throws in the
source, and every call site catches, so the call is modelled as
returning the failure alongside the store with the attempt counted. -/
def Store.setItem (st : Store) (key : String) (v : JStr) : Bool × Store :=
  if st.setOk then
    (true, { entries := putEntry st.entries key v, setOk := st.setOk,
             writeCalls := st.writeCalls + 1 })
  else
    (false, { entries := st.entries, setOk := st.setOk,
              writeCalls := st.writeCalls + 1 })

def Store.removeItem (st : Store) (key : String) : Store :=
  { entries := dropEntry st.entries key, setOk := st.setOk,
    writeCalls := st.writeCalls }

/-- Function `migrateStoredValueToEncrypted` from lines 97-117: a no-op unless
migration is requested and the parsed value is not already a wrapper;
an encrypt or `setItem` failure is caught and reported only. -/
def migrateStoredValueToEncrypted (st : Store) (fullKey : String)
    (rawParsed : JVal) (enc : Option EncryptionHooks) : Store :=
  match enc with
  | none => st
  | some e =>
      if !e.migrate || isEncryptedWrapper rawParsed then st
      else
        match e.encrypt (stringify rawParsed) with
        | .error _ => st
        | .ok cipherText =>
            (st.setItem fullKey (stringify (encryptedWrapperVal cipherText))).2

/-- The migration guard repeated on lines 200-205, 293-298 and 505-510. -/
def migrationWanted (enc : Option EncryptionHooks) (r : ReadStoredResult) : Bool :=
  (match enc with
   | some e => e.migrate
   | none => false)
  && !r.parseError && !r.wasEncrypted && !(isUndefined r.rawParsed)

/-- The path walk of lines 209-214: `undefined` as soon as the current
value is null or undefined, otherwise index and continue. -/
def walkPath (v : JVal) : List String → JVal
  | [] => v
  | key :: rest =>
      match v with
      | .null => .undefined
      | .undefined => .undefined
      | _ => walkPath (jvalGetProp v key) rest

/-- Function `getValueAtPath` from lines 182-215, returning the value and the
store after the side effects of the read (expired/undecryptable entries are
removed; a plain entry may be migrated). -/
def getValueAtPath (st : Store) (pfx rootKey : String) (path : List String)
    (ttl : Option Int) (enc : Option EncryptionHooks) (now : Int) :
    JVal × Store :=
  let fullKey := pfx ++ rootKey
  match st.getItem fullKey with
  | none => (.undefined, st)
  | some s =>
      let r := readStoredValue s ttl enc now
      if r.expired || r.decryptionError then (.undefined, st.removeItem fullKey)
      else
        let st1 := if migrationWanted enc r
          then migrateStoredValueToEncrypted st fullKey r.rawParsed enc
          else st
        (walkPath r.value path, st1)

/-- The defaults walk of lines 244-255 (and its repetitions): step into
the defaults while they are truthy and of object type, `undefined`
otherwise. -/
def walkDefaults (d : JVal) : List String → JVal
  | [] => d
  | key :: rest =>
      match d with
      | .obj _ => walkDefaults (jvalGetProp d key) rest
      | .arr _ => walkDefaults (jvalGetProp d key) rest
      | _ => .undefined

/-- What a facade or nested property read hands back: a plain value, a
nested accessor bound to a root key and path (`createNestedProxy`), or
the reserved `clearAll` function. -/
inductive GetResult where
  | val (v : JVal)
  | proxyRef (rootKey : String) (path : List String)
  | clearAllFn

/-- The nested proxy `get` trap, lines 227-281 (string properties). -/
def nestedProxyGet (st : Store) (pfx rootKey : String) (path : List String)
    (defaultsAtRoot : JVal) (ttl : Option Int) (enc : Option EncryptionHooks)
    (now : Int) (prop : String) : GetResult × Store :=
  let res := getValueAtPath st pfx rootKey path ttl enc now
  let current := res.1
  let defaultsAtPath := walkDefaults defaultsAtRoot path
  if isNullOrUndef current && !truthy defaultsAtPath then (.val .undefined, res.2)
  else
    let value0 := if isNullOrUndef current then .undefined else jvalGetProp current prop
    let dp := jvalGetProp defaultsAtPath prop
    let value1 := if truthy defaultsAtPath && !isUndefined dp
      then deepMerge dp value0 else value0
    match value1 with
    | .obj _ => (.proxyRef rootKey (path ++ [prop]), res.2)
    | _ => (.val value1, res.2)

/-- The root-object resolution of the nested `set` trap, lines 283-308:
read the stored root, drop an expired or undecryptable entry, possibly
migrate, and hand back the decoded root value. -/
def resolveWriteRoot (st : Store) (fullKey : String) (ttl : Option Int)
    (enc : Option EncryptionHooks) (now : Int) : JVal × Store :=
  match st.getItem fullKey with
  | none => (.obj [], st)
  | some s =>
      let r := readStoredValue s ttl enc now
      if r.expired || r.decryptionError then (.obj [], st.removeItem fullKey)
      else
        let st1 := if migrationWanted enc r
          then migrateStoredValueToEncrypted st fullKey r.rawParsed enc
          else st
        (r.value, st1)

/-- Line 310: a root that is null, not of object type, or an array is
replaced by an empty object before the nested write. -/
def coerceRootObj : JVal → JVal
  | .obj fs => .obj fs
  | _ => .obj []

/-- The guard of line 316: an intermediate that is null or not of
object type is replaced by an empty object; objects and arrays pass the
`typeof` test and are kept. -/
def coerceChild : JVal → JVal
  | .obj fs => .obj fs
  | .arr xs => .arr xs
  | _ => .obj []

/-- The mutation loop of lines 314-321: walk the path, coercing each
intermediate with the line-316 guard, then set the final property. -/
def setPath (root : JVal) : List String → String → JVal → JVal
  | [], prop, value => jvalSetProp root prop value
  | key :: rest, prop, value =>
      jvalSetProp root key
        (setPath (coerceChild (jvalGetProp root key)) rest prop value)

/-- The nested proxy `set` trap, lines 282-330: full
read-decode-mutate-encode-write of the root entry; serialization and
store errors are caught and the trap reports acceptance either way. -/
def nestedProxySet (st : Store) (pfx rootKey : String) (path : List String)
    (ttl : Option Int) (enc : Option EncryptionHooks) (now : Int)
    (prop : String) (value : JVal) : Bool × Store :=
  let fullKey := pfx ++ rootKey
  let res := resolveWriteRoot st fullKey ttl enc now
  let newRoot := setPath (coerceRootObj res.1) path prop value
  match serializeForStorage newRoot ttl enc now with
  | .error _ => (true, res.2)
  | .ok s => (true, (res.2.setItem fullKey s).2)

/-- The nested proxy `has` trap, lines 422-455 (string properties). -/
def nestedProxyHas (st : Store) (pfx rootKey : String) (path : List String)
    (defaultsAtRoot : JVal) (ttl : Option Int) (enc : Option EncryptionHooks)
    (now : Int) (prop : String) : Bool × Store :=
  let res := getValueAtPath st pfx rootKey path ttl enc now
  if jsHasProp res.1 prop then (true, res.2)
  else
    let d := walkDefaults defaultsAtRoot path
    (match d with
     | .obj _ => jsHasProp d prop
     | .arr _ => jsHasProp d prop
     | _ => false, res.2)

/-- The nested proxy `ownKeys` trap, lines 331-364. -/
def nestedOwnKeys (st : Store) (pfx rootKey : String) (path : List String)
    (defaultsAtRoot : JVal) (ttl : Option Int) (enc : Option EncryptionHooks)
    (now : Int) : List String × Store :=
  let res := getValueAtPath st pfx rootKey path ttl enc now
  let keys := if truthy res.1 then jsObjectKeys res.1 else []
  let d := walkDefaults defaultsAtRoot path
  let keys2 :=
    match d with
    | .obj _ => keys ++ (jsObjectKeys d).filter (fun k => !(keys.contains k))
    | .arr _ => keys ++ (jsObjectKeys d).filter (fun k => !(keys.contains k))
    | _ => keys
  (keys2, res.2)

/-- The facade `get` trap of `oto`, lines 480-545: the reserved
`clearAll` property short-circuits to the clear function; otherwise the
entry is read, decoded, possibly removed or migrated, defaults are
merged, and an object value becomes a nested accessor. -/
def facadeGet (st : Store) (pfx : String) (defaults : List (String × JVal))
    (ttl : Option Int) (enc : Option EncryptionHooks) (now : Int)
    (prop : String) : GetResult × Store :=
  if prop = "clearAll" then (.clearAllFn, st)
  else
    let fullKey := pfx ++ prop
    let res : JVal × Store :=
      match st.getItem fullKey with
      | none => (.undefined, st)
      | some s =>
          let r := readStoredValue s ttl enc now
          if r.expired || r.decryptionError then (.undefined, st.removeItem fullKey)
          else
            let st1 := if migrationWanted enc r
              then migrateStoredValueToEncrypted st fullKey r.rawParsed enc
              else st
            (r.value, st1)
    let d := getD defaults prop
    let parsed := if isUndefined d then res.1 else deepMerge d res.1
    match parsed with
    | .undefined => (.val .undefined, res.2)
    | .obj _ => (.proxyRef prop [], res.2)
    | _ => (.val parsed, res.2)

/-- The facade `set` trap, lines 546-554: serialize and persist inside
a `try`/`catch` that reports the failure and accepts the assignment. -/
def facadeSet (st : Store) (pfx : String) (ttl : Option Int)
    (enc : Option EncryptionHooks) (now : Int) (prop : String)
    (value : JVal) : Bool × Store :=
  match serializeForStorage value ttl enc now with
  | .error _ => (true, st)
  | .ok s => (true, (st.setItem (pfx ++ prop) s).2)

/-- The facade `has` trap, lines 555-565: a present physical entry or a
configured default key answers true; the entry is not decoded. -/
def facadeHas (st : Store) (pfx : String) (defaults : List (String × JVal))
    (prop : String) : Bool :=
  if (st.getItem (pfx ++ prop)).isSome then true
  else if hasF defaults prop then true
  else false

/-- Fixtures for concrete evaluations: identity encryption hooks, with
and without migration, hooks whose decrypt always throws, and small
concrete stores. -/
def idHooks : EncryptionHooks :=
  { encrypt := fun s => .ok s, decrypt := fun s => .ok s, migrate := false }

def migHooks : EncryptionHooks :=
  { encrypt := fun s => .ok s, decrypt := fun s => .ok s, migrate := true }

def failDecHooks : EncryptionHooks :=
  { encrypt := fun s => .ok s, decrypt := fun _ => .error (), migrate := false }

def emptyStore : Store :=
  { entries := [], setOk := true, writeCalls := 0 }

def sampleExpiredStr : JStr :=
  stringify (wrapWithTTL (.num 7) 10 0)

def sampleExpiredStore : Store :=
  { entries := [("k", sampleExpiredStr)], setOk := true, writeCalls := 0 }

def samplePlainStore : Store :=
  { entries := [("k", stringify (.num 5))], setOk := true, writeCalls := 0 }

def userStore : Store :=
  { entries :=
      [("user", stringify (.obj [("name", .str (.raw "Alice")), ("age", .num 30)]))],
    setOk := true, writeCalls := 0 }

def tfAnon : List (String × JVal) :=
  [("name", .str (.raw "Anon")), ("role", .str (.raw "guest"))]

def sfAlice : List (String × JVal) :=
  [("name", .str (.raw "Alice"))]

/-- Modelled from the spec (section 4.5, read states): the only store
change a read may make is the physical deletion of the one entry it
touches, and only when that entry decodes as expired or undecryptable.
Used to state the frame property of reads. -/
def specReadEffect (st : Store) (fullKey : String) (ttl : Option Int)
    (enc : Option EncryptionHooks) (now : Int) : Store :=
  match st.getItem fullKey with
  | none => st
  | some s =>
      if (readStoredValue s ttl enc now).expired
          || (readStoredValue s ttl enc now).decryptionError
      then st.removeItem fullKey
      else st

/-- Modelled from the spec (the reading claim C7 gives to `writeAtPath`): a
path is free of array intermediates when, starting from an object root,
each step lands on an object field or creates one by overwriting a
non-object; on such paths the nested write always places the value. -/
def setPathSafe (root : JVal) : List String → Bool
  | [] => isObjTypeof root && !(isArr root)
  | key :: rest =>
      match root with
      | .obj fs =>
          !(isArr (getD fs key)) && setPathSafe (coerceChild (getD fs key)) rest
      | _ => false


/-! Helper lemmas about the embedded operations. -/

theorem getF_setF_self (fs : List (String × JVal)) (key : String) (v : JVal) :
    getF (setF fs key v) key = some v := by
  induction fs with
  | nil => simp [setF, getF]
  | cons e fs ih =>
      obtain ⟨k, w⟩ := e
      by_cases h : k = key <;> simp [setF, getF, h, ih]

theorem getF_setF_ne (fs : List (String × JVal)) (key key1 : String) (v : JVal)
    (h : key1 ≠ key) : getF (setF fs key v) key1 = getF fs key1 := by
  induction fs with
  | nil => simp [setF, getF, Ne.symm h]
  | cons e fs ih =>
      obtain ⟨k, w⟩ := e
      by_cases hk : k = key
      · subst hk
        simp [setF, getF, Ne.symm h]
      · simp only [setF, hk, if_false, getF]
        by_cases hk1 : k = key1 <;> simp [hk1, ih]

theorem getF_eq_none (fs : List (String × JVal)) (key : String)
    (h : key ∉ fs.map Prod.fst) : getF fs key = none := by
  induction fs with
  | nil => simp [getF]
  | cons e fs ih =>
      obtain ⟨k, w⟩ := e
      simp only [List.map_cons, List.mem_cons, not_or] at h
      simp [getF, Ne.symm h.1, ih h.2]

theorem lookupS_putEntry_self (es : List (String × JStr)) (key : String) (v : JStr) :
    lookupS (putEntry es key v) key = some v := by
  induction es with
  | nil => simp [putEntry, lookupS]
  | cons e es ih =>
      obtain ⟨k, w⟩ := e
      by_cases h : k = key <;> simp [putEntry, lookupS, h, ih]

theorem lookupS_putEntry_ne (es : List (String × JStr)) (key key1 : String) (v : JStr)
    (h : key1 ≠ key) : lookupS (putEntry es key v) key1 = lookupS es key1 := by
  induction es with
  | nil => simp [putEntry, lookupS, Ne.symm h]
  | cons e es ih =>
      obtain ⟨k, w⟩ := e
      by_cases hk : k = key
      · subst hk
        simp [putEntry, lookupS, Ne.symm h]
      · simp only [putEntry, hk, if_false, lookupS]
        by_cases hk1 : k = key1 <;> simp [hk1, ih]

theorem lookupS_dropEntry_self (es : List (String × JStr)) (key : String) :
    lookupS (dropEntry es key) key = none := by
  induction es with
  | nil => simp [dropEntry, lookupS]
  | cons e es ih =>
      obtain ⟨k, w⟩ := e
      by_cases h : k = key
      · subst h
        simpa [dropEntry, List.filter_cons] using ih
      · simp only [dropEntry, List.filter_cons] at ih ⊢
        simp [h, lookupS, ih]

theorem lookupS_dropEntry_ne (es : List (String × JStr)) (key key1 : String)
    (h : key1 ≠ key) : lookupS (dropEntry es key) key1 = lookupS es key1 := by
  induction es with
  | nil => simp [dropEntry, lookupS]
  | cons e es ih =>
      obtain ⟨k, w⟩ := e
      by_cases hk : k = key
      · subst hk
        simp only [dropEntry, List.filter_cons] at ih ⊢
        simp [lookupS, Ne.symm h, ih]
      · simp only [dropEntry, List.filter_cons] at ih ⊢
        by_cases hk1 : k = key1 <;> simp [hk, hk1, h, lookupS, ih]

theorem getItem_removeItem_self (st : Store) (key : String) :
    (st.removeItem key).getItem key = none := by
  simp [Store.getItem, Store.removeItem, lookupS_dropEntry_self]

theorem getItem_removeItem_ne (st : Store) (key key1 : String) (h : key1 ≠ key) :
    (st.removeItem key).getItem key1 = st.getItem key1 := by
  simp [Store.getItem, Store.removeItem, lookupS_dropEntry_ne _ _ _ h]

theorem parse_stringify (v : JVal) (h : isUndefined v = false) :
    parse (stringify v) = some v := by
  cases v <;> simp_all [isUndefined, stringify, parse]

theorem finishRead_parseError (parsed payload : JVal) (we : Bool)
    (ttl : Option Int) (now : Int) :
    (finishRead parsed payload we ttl now).parseError = false := by
  unfold finishRead
  split
  · split <;> rfl
  · rfl

theorem finishRead_decryptionError (parsed payload : JVal) (we : Bool)
    (ttl : Option Int) (now : Int) :
    (finishRead parsed payload we ttl now).decryptionError = false := by
  unfold finishRead
  split
  · split <;> rfl
  · rfl

theorem finishRead_rawParsed (parsed payload : JVal) (we : Bool)
    (ttl : Option Int) (now : Int) :
    (finishRead parsed payload we ttl now).rawParsed = parsed := by
  unfold finishRead
  split
  · split <;> rfl
  · rfl

theorem finishRead_wasEncrypted (parsed payload : JVal) (we : Bool)
    (ttl : Option Int) (now : Int) :
    (finishRead parsed payload we ttl now).wasEncrypted = we := by
  unfold finishRead
  split
  · split <;> rfl
  · rfl

theorem readStoredValue_decErr_value (s : JStr) (ttl : Option Int)
    (enc : Option EncryptionHooks) (now : Int)
    (h : (readStoredValue s ttl enc now).decryptionError = true) :
    (readStoredValue s ttl enc now).value = .undefined := by
  unfold readStoredValue at h ⊢
  split at h
  · simp at h
  · split at h
    · exact absurd h (by simp [finishRead_decryptionError])
    · split at h
      · exact absurd h (by simp [finishRead_decryptionError])
      · split at h
        · rfl
        · split at h
          · rfl
          · exact absurd h (by simp [finishRead_decryptionError])

theorem mergeInto_cons (tf acc : List (String × JVal)) (k0 : String) (sv0 : JVal)
    (rest : List (String × JVal)) :
    mergeInto tf acc ((k0, sv0) :: rest)
      = mergeInto tf (setF acc k0 (deepMerge (getD tf k0) sv0)) rest := by
  simp [mergeInto]

theorem getF_mergeInto (tf : List (String × JVal)) :
    ∀ (sf acc : List (String × JVal)), (sf.map Prod.fst).Nodup →
    ∀ key, getF (mergeInto tf acc sf) key
      = match getF sf key with
        | some sv => some (deepMerge (getD tf key) sv)
        | none => getF acc key := by
  intro sf
  induction sf with
  | nil => intro acc h key; simp [mergeInto, getF]
  | cons e rest ih =>
      obtain ⟨k0, sv0⟩ := e
      intro acc h key
      simp only [List.map_cons, List.nodup_cons] at h
      rw [mergeInto_cons, ih _ h.2 key]
      by_cases hk : k0 = key
      · subst hk
        rw [getF_eq_none rest k0 h.1]
        simp [getF, getF_setF_self]
      · rw [getF_setF_ne _ _ _ _ (Ne.symm hk)]
        simp [getF, hk]

theorem migrationWanted_off (enc : Option EncryptionHooks) (r : ReadStoredResult)
    (h : ∀ e, enc = some e → e.migrate = false) : migrationWanted enc r = false := by
  cases enc with
  | none => simp [migrationWanted]
  | some e => simp [migrationWanted, h e rfl]

theorem getValueAtPath_store (st : Store) (pfx rootKey : String) (path : List String)
    (ttl : Option Int) (enc : Option EncryptionHooks) (now : Int)
    (h : ∀ e, enc = some e → e.migrate = false) :
    (getValueAtPath st pfx rootKey path ttl enc now).2
      = specReadEffect st (pfx ++ rootKey) ttl enc now := by
  unfold getValueAtPath specReadEffect
  cases hItem : st.getItem (pfx ++ rootKey) with
  | none => simp [hItem]
  | some s =>
      simp only [hItem, migrationWanted_off enc _ h, if_false, Bool.false_eq_true]
      split <;> rfl

theorem specReadEffect_writeCalls (st : Store) (key : String) (ttl : Option Int)
    (enc : Option EncryptionHooks) (now : Int) :
    (specReadEffect st key ttl enc now).writeCalls = st.writeCalls := by
  unfold specReadEffect
  split
  · rfl
  · split <;> rfl

theorem specReadEffect_cases (st : Store) (key : String) (ttl : Option Int)
    (enc : Option EncryptionHooks) (now : Int) :
    specReadEffect st key ttl enc now = st
      ∨ specReadEffect st key ttl enc now = st.removeItem key := by
  unfold specReadEffect
  split
  · exact Or.inl rfl
  · split
    · exact Or.inr rfl
    · exact Or.inl rfl

theorem nestedProxyGet_store (st : Store) (pfx rootKey : String) (path : List String)
    (dAtRoot : JVal) (ttl : Option Int) (enc : Option EncryptionHooks) (now : Int)
    (prop : String) :
    (nestedProxyGet st pfx rootKey path dAtRoot ttl enc now prop).2
      = (getValueAtPath st pfx rootKey path ttl enc now).2 := by
  simp only [nestedProxyGet]
  split
  · rfl
  · split <;> rfl

theorem nestedProxyHas_store (st : Store) (pfx rootKey : String) (path : List String)
    (dAtRoot : JVal) (ttl : Option Int) (enc : Option EncryptionHooks) (now : Int)
    (prop : String) :
    (nestedProxyHas st pfx rootKey path dAtRoot ttl enc now prop).2
      = (getValueAtPath st pfx rootKey path ttl enc now).2 := by
  simp only [nestedProxyHas]
  split <;> rfl

theorem nestedOwnKeys_store (st : Store) (pfx rootKey : String) (path : List String)
    (dAtRoot : JVal) (ttl : Option Int) (enc : Option EncryptionHooks) (now : Int) :
    (nestedOwnKeys st pfx rootKey path dAtRoot ttl enc now).2
      = (getValueAtPath st pfx rootKey path ttl enc now).2 := rfl

theorem facadeGet_store (st : Store) (pfx : String) (dflts : List (String × JVal))
    (ttl : Option Int) (enc : Option EncryptionHooks) (now : Int) (prop : String)
    (h : ∀ e, enc = some e → e.migrate = false) :
    (facadeGet st pfx dflts ttl enc now prop).2
      = if prop = "clearAll" then st
        else specReadEffect st (pfx ++ prop) ttl enc now := by
  unfold facadeGet specReadEffect
  by_cases hc : prop = "clearAll"
  · simp [hc]
  · simp only [hc, if_false]
    have hres : (match st.getItem (pfx ++ prop) with
        | none => ((.undefined : JVal), st)
        | some s =>
            let r := readStoredValue s ttl enc now
            if r.expired || r.decryptionError then ((.undefined : JVal), st.removeItem (pfx ++ prop))
            else
              let st1 := if migrationWanted enc r
                then migrateStoredValueToEncrypted st (pfx ++ prop) r.rawParsed enc
                else st
              (r.value, st1)).2
        = (match st.getItem (pfx ++ prop) with
           | none => st
           | some s =>
               if (readStoredValue s ttl enc now).expired
                   || (readStoredValue s ttl enc now).decryptionError
               then st.removeItem (pfx ++ prop)
               else st) := by
      cases hItem : st.getItem (pfx ++ prop) with
      | none => simp [hItem]
      | some s =>
          simp only [hItem, migrationWanted_off enc _ h, if_false, Bool.false_eq_true]
          split <;> rfl
    split <;> simp_all

theorem setItem_snd_setOk (st : Store) (key : String) (v : JStr) :
    (st.setItem key v).2.setOk = st.setOk := by
  unfold Store.setItem
  split <;> rfl

theorem setItem_snd_getItem_self (st : Store) (key : String) (v : JStr)
    (h : st.setOk = true) : (st.setItem key v).2.getItem key = some v := by
  simp [Store.setItem, h, Store.getItem, lookupS_putEntry_self]

theorem setItem_snd_getItem_ne (st : Store) (key key1 : String) (v : JStr)
    (h : key1 ≠ key) : (st.setItem key v).2.getItem key1 = st.getItem key1 := by
  unfold Store.setItem
  split <;> simp [Store.getItem, lookupS_putEntry_ne _ _ _ _ h]

theorem setItem_snd_writeCalls (st : Store) (key : String) (v : JStr) :
    (st.setItem key v).2.writeCalls = st.writeCalls + 1 := by
  unfold Store.setItem
  split <;> rfl

theorem resolveWriteRoot_store (st : Store) (fk : String) (ttl : Option Int)
    (enc : Option EncryptionHooks) (now : Int)
    (h : ∀ e, enc = some e → e.migrate = false) :
    (resolveWriteRoot st fk ttl enc now).2 = st
      ∨ (resolveWriteRoot st fk ttl enc now).2 = st.removeItem fk := by
  unfold resolveWriteRoot
  cases hItem : st.getItem fk with
  | none => simp [hItem]
  | some s =>
      simp only [hItem, migrationWanted_off enc _ h, if_false, Bool.false_eq_true]
      split
      · exact Or.inr rfl
      · exact Or.inl rfl


theorem finishRead_expired_of (parsed payload : JVal) (we : Bool)
    (ttl : Option Int) (now : Int)
    (h : (unwrapWithTTL payload now).2 = false) :
    (finishRead parsed payload we ttl now).expired = false := by
  unfold finishRead
  split
  · simp [h]
  · rfl

theorem ttlWrapVal_isUndef (v : JVal) (ttl : Option Int) (nw : Int)
    (h : isUndefined v = false) : isUndefined (ttlWrapVal v ttl nw) = false := by
  cases ttl with
  | none => exact h
  | some t =>
      by_cases ht : 0 < t
      · simp [ttlWrapVal, ht, wrapWithTTL, isUndefined]
      · simpa [ttlWrapVal, ht] using h

theorem finishRead_ttlWrap (parsed v : JVal) (we : Bool) (ttl : Option Int)
    (nw nr : Int) (hdl : ∀ t, ttl = some t → nr ≤ nw + t) :
    (finishRead parsed (ttlWrapVal v ttl nw) we ttl nr).value = v
  ∧ (finishRead parsed (ttlWrapVal v ttl nw) we ttl nr).expired = false := by
  cases ttl with
  | none => simp [ttlWrapVal, finishRead, ttlActive]
  | some t =>
      by_cases ht : 0 < t
      · have hnr : ¬ (nw + t < nr) := by
          have := hdl t rfl
          omega
        simp [ttlWrapVal, ht, wrapWithTTL, finishRead, ttlActive, unwrapWithTTL, getF, hnr]
      · simp [ttlWrapVal, ht, finishRead, ttlActive]

theorem setPath_places : ∀ (path : List String) (root : JVal) (prop : String)
    (value : JVal), setPathSafe root path = true →
    walkPath (setPath root path prop value) (path ++ [prop]) = value := by
  intro path
  induction path with
  | nil =>
      intro root prop value h
      cases root <;> simp [setPathSafe, isArr, isObjTypeof] at h
      simp [setPath, jvalSetProp, walkPath, jvalGetProp, getD, getF_setF_self]
  | cons key rest ih =>
      intro root prop value h
      cases root with
      | undefined => simp [setPathSafe] at h
      | null => simp [setPathSafe] at h
      | bool b => simp [setPathSafe] at h
      | num n => simp [setPathSafe] at h
      | str j => simp [setPathSafe] at h
      | arr xs => simp [setPathSafe] at h
      | obj fs =>
          simp only [setPathSafe, Bool.and_eq_true] at h
          simp only [setPath, jvalGetProp, List.cons_append]
          simp only [jvalSetProp, walkPath, jvalGetProp, getD, getF_setF_self]
          exact ih _ _ _ h.2


/-! Claim theorems. -/

/-- Claim C6: a write through the facade set trap or the nested proxy
set trap never raises to the caller and reports acceptance (the trap
answers `true`), for every value, every store (a quota failure
included) and every encryption configuration (a throwing encrypt hook
included); failures surface only through the side-effect reporting
channel.  Reads are total functions of the embedding, so no read
accessor raises either. -/
theorem c6_writes_never_raise (st : Store) (pfx rootKey prop : String)
    (path : List String) (ttl : Option Int) (enc : Option EncryptionHooks)
    (now : Int) (value : JVal) :
    (facadeSet st pfx ttl enc now prop value).1 = true
  ∧ (nestedProxySet st pfx rootKey path ttl enc now prop value).1 = true := by
  constructor
  · unfold facadeSet
    split <;> rfl
  · simp only [nestedProxySet]
    split <;> rfl

/-- Claim C5 counterexample: an expired TTL envelope is stored at
physical key "k" and no default is configured for "k", yet the facade
has trap answers `true` — it tests only physical presence and never
decodes the entry, while the claim requires `false` here. -/
theorem c5_cex :
    facadeHas sampleExpiredStore "" [] "k" = true
  ∧ (readStoredValue sampleExpiredStr (some 10) none 100).expired = true
  ∧ getF [] "k" = none :=
  ⟨rfl, rfl, rfl⟩

/-- Claim C5 (amended): the facade existence check answers true exactly
when the physical key `prefix ++ k` is present — whether or not its
stored string decodes cleanly — or a default is configured for `k`. -/
theorem c5_has_amended (st : Store) (pfx : String)
    (dflts : List (String × JVal)) (prop : String) :
    facadeHas st pfx dflts prop
      = ((st.getItem (pfx ++ prop)).isSome || hasF dflts prop) := by
  unfold facadeHas
  cases h : (st.getItem (pfx ++ prop)).isSome <;>
    cases h2 : hasF dflts prop <;> simp [h, h2]

/-- Claim C9: the property name clearAll is reserved at the facade:
reading it returns the clear-all function whatever the store holds,
while assigning it persists an entry under the physical key
`prefix ++ "clearAll"`; hence a value written at logical key "clearAll"
is never read back through the facade. -/
theorem c9_clearAll_reserved (st : Store) (pfx : String)
    (dflts : List (String × JVal)) (ttl : Option Int)
    (enc : Option EncryptionHooks) (now : Int) (value : JVal) (s : JStr)
    (hok : st.setOk = true)
    (hser : serializeForStorage value ttl enc now = .ok s) :
    (∀ st2 : Store, facadeGet st2 pfx dflts ttl enc now "clearAll"
        = (.clearAllFn, st2))
  ∧ ((facadeSet st pfx ttl enc now "clearAll" value).2).getItem
        (pfx ++ "clearAll") = some s := by
  constructor
  · intro st2
    unfold facadeGet
    simp
  · unfold facadeSet
    rw [hser]
    exact setItem_snd_getItem_self st _ s hok

/-- Claim C9 witness at a store holding an entry under key "clearAll"
and a plain numeric write. -/
theorem c9_clearAll_reserved_witness :
    (∀ st2 : Store, facadeGet st2 "" [] none none 0 "clearAll"
        = (.clearAllFn, st2))
  ∧ ((facadeSet emptyStore "" none none 0 "clearAll" (.num 3)).2).getItem
        ("" ++ "clearAll")
      = some (stringify (.num 3)) :=
  c9_clearAll_reserved emptyStore "" [] none none 0 (.num 3)
    (stringify (.num 3)) rfl rfl

/-- Claim C10: with migration disabled, no read invokes `setItem`: the
store after a facade get, nested get, nested has or nested ownKeys is
exactly the spec read effect — unchanged, or with the one touched entry
removed, and removal happens only when that entry decodes as expired or
undecryptable; the write counter never moves.  The facade has trap does
not touch the store at all in the embedding. -/
theorem c10_reads_frame (st : Store) (pfx rootKey : String)
    (path : List String) (dflts : List (String × JVal)) (dAtRoot : JVal)
    (ttl : Option Int) (enc : Option EncryptionHooks) (now : Int)
    (prop : String)
    (hmig : ∀ e, enc = some e → e.migrate = false) :
    (getValueAtPath st pfx rootKey path ttl enc now).2
        = specReadEffect st (pfx ++ rootKey) ttl enc now
  ∧ (facadeGet st pfx dflts ttl enc now prop).2
        = (if prop = "clearAll" then st
           else specReadEffect st (pfx ++ prop) ttl enc now)
  ∧ (nestedProxyGet st pfx rootKey path dAtRoot ttl enc now prop).2
        = specReadEffect st (pfx ++ rootKey) ttl enc now
  ∧ (nestedProxyHas st pfx rootKey path dAtRoot ttl enc now prop).2
        = specReadEffect st (pfx ++ rootKey) ttl enc now
  ∧ (nestedOwnKeys st pfx rootKey path dAtRoot ttl enc now).2
        = specReadEffect st (pfx ++ rootKey) ttl enc now
  ∧ (specReadEffect st (pfx ++ rootKey) ttl enc now).writeCalls
        = st.writeCalls
  ∧ (specReadEffect st (pfx ++ rootKey) ttl enc now = st
      ∨ specReadEffect st (pfx ++ rootKey) ttl enc now
          = st.removeItem (pfx ++ rootKey)) := by
  refine ⟨getValueAtPath_store st pfx rootKey path ttl enc now hmig,
    facadeGet_store st pfx dflts ttl enc now prop hmig, ?_, ?_, ?_,
    specReadEffect_writeCalls st (pfx ++ rootKey) ttl enc now,
    specReadEffect_cases st (pfx ++ rootKey) ttl enc now⟩
  · rw [nestedProxyGet_store]
    exact getValueAtPath_store st pfx rootKey path ttl enc now hmig
  · rw [nestedProxyHas_store]
    exact getValueAtPath_store st pfx rootKey path ttl enc now hmig
  · rw [nestedOwnKeys_store]
    exact getValueAtPath_store st pfx rootKey path ttl enc now hmig

/-- Claim C10 witness: a store with one live plain entry, no
encryption; a facade read of it leaves the store exactly as it was. -/
theorem c10_reads_frame_witness :
    (facadeGet samplePlainStore "" [] none none 0 "k").2
      = (if "k" = "clearAll" then samplePlainStore
         else specReadEffect samplePlainStore ("" ++ "k") none none 0)
  ∧ specReadEffect samplePlainStore ("" ++ "k") none none 0
      = samplePlainStore :=
  ⟨(c10_reads_frame samplePlainStore "" "k" [] [] .undefined none none 0 "k"
      (fun _ h => nomatch h)).2.1, rfl⟩


/-- Claim C2: a read of a key whose stored string decodes as expired or
undecryptable physically deletes that entry and behaves exactly like a
read of the store without it, so the caller sees the configured default
or undefined; and a decryption error always yields the undefined value,
never the raw ciphertext. -/
theorem c2_bad_entry_isolated (st : Store) (pfx : String)
    (dflts : List (String × JVal)) (ttl ttl2 : Option Int)
    (enc enc2 : Option EncryptionHooks) (now now2 : Int) (prop rk : String)
    (path : List String) (s s2 : JStr)
    (hprop : prop ≠ "clearAll")
    (hItem : st.getItem (pfx ++ prop) = some s)
    (hItemR : st.getItem (pfx ++ rk) = some s)
    (hbad : (readStoredValue s ttl enc now).expired = true
        ∨ (readStoredValue s ttl enc now).decryptionError = true)
    (hdec2 : (readStoredValue s2 ttl2 enc2 now2).decryptionError = true) :
    facadeGet st pfx dflts ttl enc now prop
      = ((facadeGet (st.removeItem (pfx ++ prop)) pfx dflts ttl enc now prop).1,
          st.removeItem (pfx ++ prop))
  ∧ getValueAtPath st pfx rk path ttl enc now
      = (.undefined, st.removeItem (pfx ++ rk))
  ∧ (readStoredValue s2 ttl2 enc2 now2).value = .undefined := by
  have hb : ((readStoredValue s ttl enc now).expired
      || (readStoredValue s ttl enc now).decryptionError) = true := by
    rcases hbad with h | h <;> simp [h]
  refine ⟨?_, ?_, readStoredValue_decErr_value s2 ttl2 enc2 now2 hdec2⟩
  · unfold facadeGet
    rw [if_neg hprop, if_neg hprop]
    simp only [hItem, hb, if_true, getItem_removeItem_self]
    split <;> rfl
  · unfold getValueAtPath
    simp only [hItemR, hb, if_true]

/-- Claim C2 witness: an expired TTL envelope at key "k" with no
default, and an encrypted envelope whose decrypt hook throws. -/
theorem c2_bad_entry_isolated_witness :
    (facadeGet sampleExpiredStore "" [] (some 10) none 100 "k"
      = ((facadeGet (sampleExpiredStore.removeItem ("" ++ "k")) "" []
            (some 10) none 100 "k").1,
          sampleExpiredStore.removeItem ("" ++ "k")))
  ∧ getValueAtPath sampleExpiredStore "" "k" [] (some 10) none 100
      = (.undefined, sampleExpiredStore.removeItem ("" ++ "k"))
  ∧ (readStoredValue (stringify (encryptedWrapperVal (.raw "zz"))) none
        (some failDecHooks) 0).value = .undefined
  ∧ facadeGet sampleExpiredStore "" [] (some 10) none 100 "k"
      = (.val .undefined, sampleExpiredStore.removeItem ("" ++ "k")) := by
  have h := c2_bad_entry_isolated sampleExpiredStore "" [] (some 10) none
    none (some failDecHooks) 100 0 "k" "k" []
    sampleExpiredStr (stringify (encryptedWrapperVal (.raw "zz")))
    (by decide) rfl rfl (Or.inl rfl) rfl
  exact ⟨h.1, h.2.1, h.2.2, rfl⟩

/-- Claim C3: a nested assignment is one full
read-decode-mutate-encode-write cycle of the root entry: afterwards the
physical key of the root holds the full re-encoded root with the value
placed, no other physical key changes, exactly one store write
happened, sibling fields of the assigned property survive in general,
and on the example from the spec, writing user.name = "Bob" over
{name: "Alice", age: 30} stores {name: "Bob", age: 30}. -/
theorem c3_nested_write_cycle (st : Store) (pfx rootKey prop : String)
    (path : List String) (ttl : Option Int) (enc : Option EncryptionHooks)
    (now : Int) (value : JVal) (s1 : JStr)
    (hok : st.setOk = true)
    (hmig : ∀ e, enc = some e → e.migrate = false)
    (hser : serializeForStorage
        (setPath (coerceRootObj (resolveWriteRoot st (pfx ++ rootKey) ttl enc now).1)
          path prop value) ttl enc now = .ok s1) :
    ((nestedProxySet st pfx rootKey path ttl enc now prop value).2).getItem
        (pfx ++ rootKey) = some s1
  ∧ (∀ k, k ≠ pfx ++ rootKey →
        ((nestedProxySet st pfx rootKey path ttl enc now prop value).2).getItem k
          = st.getItem k)
  ∧ ((nestedProxySet st pfx rootKey path ttl enc now prop value).2).writeCalls
        = st.writeCalls + 1
  ∧ (∀ tf k2, k2 ≠ prop →
        jvalGetProp (setPath (.obj tf) [] prop value) k2
          = jvalGetProp (.obj tf) k2)
  ∧ ((nestedProxySet userStore "" "user" [] none none 0 "name"
        (.str (.raw "Bob"))).2).getItem "user"
      = some (stringify (.obj [("name", .str (.raw "Bob")), ("age", .num 30)])) := by
  have hmid := resolveWriteRoot_store st (pfx ++ rootKey) ttl enc now hmig
  have heq : nestedProxySet st pfx rootKey path ttl enc now prop value
      = (true, (((resolveWriteRoot st (pfx ++ rootKey) ttl enc now).2).setItem
          (pfx ++ rootKey) s1).2) := by
    simp only [nestedProxySet, hser]
  have hmidOk : (resolveWriteRoot st (pfx ++ rootKey) ttl enc now).2.setOk = true := by
    rcases hmid with h | h <;> rw [h] <;> exact hok
  have hmidWC : (resolveWriteRoot st (pfx ++ rootKey) ttl enc now).2.writeCalls
      = st.writeCalls := by
    rcases hmid with h | h <;> rw [h] <;> rfl
  have hmidGet : ∀ k, k ≠ pfx ++ rootKey →
      (resolveWriteRoot st (pfx ++ rootKey) ttl enc now).2.getItem k
        = st.getItem k := by
    intro k hk
    rcases hmid with h | h <;> rw [h]
    exact getItem_removeItem_ne st _ k hk
  refine ⟨?_, ?_, ?_, ?_, rfl⟩
  · rw [heq]
    exact setItem_snd_getItem_self _ _ _ hmidOk
  · intro k hk
    rw [heq]
    show (((resolveWriteRoot st (pfx ++ rootKey) ttl enc now).2).setItem
        (pfx ++ rootKey) s1).2.getItem k = st.getItem k
    rw [setItem_snd_getItem_ne _ _ _ _ hk]
    exact hmidGet k hk
  · rw [heq]
    show (((resolveWriteRoot st (pfx ++ rootKey) ttl enc now).2).setItem
        (pfx ++ rootKey) s1).2.writeCalls = st.writeCalls + 1
    rw [setItem_snd_writeCalls, hmidWC]
  · intro tf k2 hk2
    simp only [setPath, jvalSetProp, jvalGetProp, getD]
    rw [getF_setF_ne tf prop k2 value hk2]

/-- Claim C3 witness: the example from the spec instantiates every
hypothesis — the write of "Bob" at user.name re-encodes the whole root
and is found under the physical key of the root. -/
theorem c3_nested_write_cycle_witness :
    ((nestedProxySet userStore "" "user" [] none none 0 "name"
        (.str (.raw "Bob"))).2).getItem ("" ++ "user")
      = some (stringify (.obj [("name", .str (.raw "Bob")), ("age", .num 30)])) :=
  (c3_nested_write_cycle userStore "" "user" "name" [] none none 0
    (.str (.raw "Bob"))
    (stringify (.obj [("name", .str (.raw "Bob")), ("age", .num 30)]))
    rfl (fun _ h => nomatch h) rfl).1


/-- Claim C4 counterexample: merging default 1 with stored null returns
the default 1, while the claim — null being neither undefined nor a
mapping — requires the stored side (null) to win outright. -/
theorem c4_cex : deepMerge (.num 1) .null = .num 1 ∧ JVal.num 1 ≠ JVal.null :=
  ⟨by simp [deepMerge], by simp⟩

/-- Claim C4 (amended): merge semantics of `deepMerge` — a null or
undefined stored side returns the default; otherwise a null or
undefined default side, or a non-mapping on either side (arrays and
scalars included), makes the stored side win; two mappings merge
keywise, defaults recursively merged under stored keys, stored-only
keys kept. -/
theorem c4_deepMerge_amended (t s : JVal) (n : Int) (b : Bool) (j : JStr)
    (xs : List JVal) (tf sf : List (String × JVal)) :
    deepMerge t .null = t
  ∧ deepMerge t .undefined = t
  ∧ deepMerge .null s = (if isNullOrUndef s then .null else s)
  ∧ deepMerge .undefined s = (if isNullOrUndef s then .undefined else s)
  ∧ deepMerge t (.num n) = .num n
  ∧ deepMerge t (.bool b) = .bool b
  ∧ deepMerge t (.str j) = .str j
  ∧ deepMerge t (.arr xs) = .arr xs
  ∧ deepMerge (.num n) s = (if isNullOrUndef s then .num n else s)
  ∧ deepMerge (.bool b) s = (if isNullOrUndef s then .bool b else s)
  ∧ deepMerge (.str j) s = (if isNullOrUndef s then .str j else s)
  ∧ deepMerge (.arr xs) s = (if isNullOrUndef s then .arr xs else s)
  ∧ ((sf.map Prod.fst).Nodup → ∀ key,
        jvalGetProp (deepMerge (.obj tf) (.obj sf)) key
          = (match getF sf key with
             | some sv => deepMerge (getD tf key) sv
             | none => getD tf key)) := by
  refine ⟨?_, ?_, ?_, ?_, ?_, ?_, ?_, ?_, ?_, ?_, ?_, ?_, ?_⟩
  · cases t <;> simp [deepMerge]
  · cases t <;> simp [deepMerge]
  · cases s <;> simp [deepMerge, isNullOrUndef]
  · cases s <;> simp [deepMerge, isNullOrUndef]
  · cases t <;> simp [deepMerge]
  · cases t <;> simp [deepMerge]
  · cases t <;> simp [deepMerge]
  · cases t <;> simp [deepMerge]
  · cases s <;> simp [deepMerge, isNullOrUndef]
  · cases s <;> simp [deepMerge, isNullOrUndef]
  · cases s <;> simp [deepMerge, isNullOrUndef]
  · cases s <;> simp [deepMerge, isNullOrUndef]
  · intro hnd key
    rw [show deepMerge (.obj tf) (.obj sf) = .obj (mergeInto tf tf sf) from by
      simp [deepMerge]]
    simp only [jvalGetProp, getD]
    rw [getF_mergeInto tf sf tf hnd key]
    cases hk : getF sf key <;> simp [getD]

/-- Claim C4 witness: the example from the spec — defaults
{name: "Anon", role: "guest"} with stored {name: "Alice"} merge to
{name: "Alice", role: "guest"}. -/
theorem c4_deepMerge_amended_witness :
    jvalGetProp (deepMerge (.obj tfAnon) (.obj sfAlice)) "role"
      = .str (.raw "guest")
  ∧ jvalGetProp (deepMerge (.obj tfAnon) (.obj sfAlice)) "name"
      = .str (.raw "Alice") := by
  have h := (c4_deepMerge_amended (.obj tfAnon) (.obj sfAlice) 0 true
    (.raw "") [] tfAnon sfAlice).2.2.2.2.2.2.2.2.2.2.2.2 (by decide)
  constructor
  · exact (h "role").trans rfl
  · exact (h "name").trans (by simp [sfAlice, tfAnon, getF, getD, deepMerge])

/-- Claim C7 counterexample: with root {a: [1]} and path ["a"], the
array intermediate is not overwritten by an empty mapping — the root is
left unchanged and the value is not placed at path a.b, though the
claim requires {a: {b: 2}}. -/
theorem c7_cex :
    setPath (.obj [("a", .arr [.num 1])]) ["a"] "b" (.num 2)
      = .obj [("a", .arr [.num 1])]
  ∧ walkPath (setPath (.obj [("a", .arr [.num 1])]) ["a"] "b" (.num 2))
      ["a", "b"] = .undefined
  ∧ JVal.undefined ≠ JVal.num 2 :=
  ⟨rfl, rfl, by simp⟩

/-- Claim C7 (amended): the nested write walks/creates intermediates,
overwriting a null, undefined or scalar intermediate with an empty
mapping; an array intermediate is kept as an array (a non-index
property set on it is dropped at serialization), so placement of the
value at the requested path is guaranteed when no array lies along the
path. -/
theorem c7_setPath_amended (root : JVal) (path : List String) (prop : String)
    (value : JVal) (fs : List (String × JVal)) (key : String)
    (hsafe : setPathSafe root path = true)
    (hscalar : isObjTypeof (getD fs key) = false) :
    walkPath (setPath root path prop value) (path ++ [prop]) = value
  ∧ setPath (.obj fs) [key] prop value
      = .obj (setF fs key (.obj [(prop, value)])) := by
  refine ⟨setPath_places path root prop value hsafe, ?_⟩
  simp only [setPath, jvalGetProp]
  cases hc : getD fs key with
  | obj gs => rw [hc] at hscalar; simp [isObjTypeof] at hscalar
  | arr ys => rw [hc] at hscalar; simp [isObjTypeof] at hscalar
  | undefined => rfl
  | null => rfl
  | bool b2 => rfl
  | num n2 => rfl
  | str j2 => rfl

/-- Claim C7 witness: root {a: 1}, path ["a"] — the scalar intermediate
is overwritten with an empty mapping and the value lands at a.b. -/
theorem c7_setPath_amended_witness :
    walkPath (setPath (.obj [("a", .num 1)]) ["a"] "b" (.num 2))
      (["a"] ++ ["b"]) = .num 2
  ∧ setPath (.obj [("a", .num 1)]) ["a"] "b" (.num 2)
      = .obj (setF [("a", .num 1)] "a" (.obj [("b", .num 2)])) :=
  c7_setPath_amended (.obj [("a", .num 1)]) ["a"] "b" (.num 2)
    [("a", .num 1)] "a" rfl rfl


/-- Claim C1: round-trip — decoding an encoded JSON-representable value
under any combination of TTL and encryption (decrypt a left inverse of
encrypt) yields the value back with no expiry, decryption or parse
flag, provided the decode happens before the TTL deadline. -/
theorem c1_round_trip (v : JVal) (ttl : Option Int)
    (enc : Option EncryptionHooks) (nw nr : Int) (s : JStr)
    (hrep : isJsonRep v = true)
    (hinv : ∀ e, enc = some e → ∀ p c, e.encrypt p = Except.ok c →
        e.decrypt c = Except.ok p)
    (hdl : ∀ t2, ttl = some t2 → nr ≤ nw + t2)
    (hser : serializeForStorage v ttl enc nw = .ok s) :
    (readStoredValue s ttl enc nr).value = v
  ∧ (readStoredValue s ttl enc nr).expired = false
  ∧ (readStoredValue s ttl enc nr).decryptionError = false
  ∧ (readStoredValue s ttl enc nr).parseError = false := by
  have hvu : isUndefined v = false := by
    cases v <;> simp_all [isJsonRep, isUndefined]
  have hwu : isUndefined (ttlWrapVal v ttl nw) = false := ttlWrapVal_isUndef v ttl nw hvu
  cases enc with
  | none =>
      simp only [serializeForStorage] at hser
      injection hser with hs
      subst hs
      have h1 := finishRead_ttlWrap (ttlWrapVal v ttl nw) v false ttl nw nr hdl
      refine ⟨?_, ?_, ?_, ?_⟩ <;>
        simp [readStoredValue, parse_stringify _ hwu, h1.1, h1.2,
          finishRead_decryptionError, finishRead_parseError]
  | some e =>
      simp only [serializeForStorage] at hser
      cases hc : e.encrypt (stringify (ttlWrapVal v ttl nw)) with
      | error u => rw [hc] at hser; simp at hser
      | ok c =>
          rw [hc] at hser
          injection hser with hs
          subst hs
          have hdecr := hinv e rfl (stringify (ttlWrapVal v ttl nw)) c hc
          have hpw : parse (stringify (encryptedWrapperVal c))
              = some (encryptedWrapperVal c) := rfl
          have hpay : encPayload (encryptedWrapperVal c) = some c := rfl
          have h1 := finishRead_ttlWrap (encryptedWrapperVal c) v true ttl nw nr hdl
          refine ⟨?_, ?_, ?_, ?_⟩ <;>
            simp [readStoredValue, hpw, hpay, hdecr, parse_stringify _ hwu,
              h1.1, h1.2, finishRead_decryptionError, finishRead_parseError]

/-- Claim C1 witness: {a: 1} under an active TTL and identity
encryption hooks, written at time 0 and read at time 500. -/
theorem c1_round_trip_witness :
    (readStoredValue
        (stringify (encryptedWrapperVal
          (stringify (wrapWithTTL (.obj [("a", .num 1)]) 1000 0))))
        (some 1000) (some idHooks) 500).value = .obj [("a", .num 1)]
  ∧ (readStoredValue
        (stringify (encryptedWrapperVal
          (stringify (wrapWithTTL (.obj [("a", .num 1)]) 1000 0))))
        (some 1000) (some idHooks) 500).expired = false
  ∧ (readStoredValue
        (stringify (encryptedWrapperVal
          (stringify (wrapWithTTL (.obj [("a", .num 1)]) 1000 0))))
        (some 1000) (some idHooks) 500).decryptionError = false
  ∧ (readStoredValue
        (stringify (encryptedWrapperVal
          (stringify (wrapWithTTL (.obj [("a", .num 1)]) 1000 0))))
        (some 1000) (some idHooks) 500).parseError = false :=
  c1_round_trip (.obj [("a", .num 1)]) (some 1000) (some idHooks) 0 500
    (stringify (encryptedWrapperVal
      (stringify (wrapWithTTL (.obj [("a", .num 1)]) 1000 0))))
    (by simp [isJsonRep, isJsonRepFields])
    (fun e he p c h => by
      cases he
      cases h
      rfl)
    (fun t2 ht => by cases ht; decide)
    rfl

/-- Claim C8: with migration enabled, reading a valid plain entry
performs exactly one re-encryption write, replacing the entry in place
with the encrypted envelope; a second read of the migrated entry leaves
the store untouched, and `migrateStoredValueToEncrypted` on an
already-encrypted value is the identity. -/
theorem c8_migration_once (st : Store) (pfx rootKey : String)
    (ttl : Option Int) (e : EncryptionHooks) (now : Int) (s : JStr)
    (pv : JVal) (c : JStr)
    (hok : st.setOk = true)
    (hmig : e.migrate = true)
    (hItem : st.getItem (pfx ++ rootKey) = some s)
    (hparse : parse s = some pv)
    (hplain : isEncryptedWrapper pv = false)
    (hnund : isUndefined pv = false)
    (hexp : (unwrapWithTTL pv now).2 = false)
    (henc : e.encrypt (stringify pv) = .ok c)
    (hdec : e.decrypt c = .ok (stringify pv)) :
    (getValueAtPath st pfx rootKey [] ttl (some e) now).2
      = { entries := putEntry st.entries (pfx ++ rootKey)
            (stringify (encryptedWrapperVal c)),
          setOk := true, writeCalls := st.writeCalls + 1 }
  ∧ (getValueAtPath ((getValueAtPath st pfx rootKey [] ttl (some e) now).2)
        pfx rootKey [] ttl (some e) now).2
      = (getValueAtPath st pfx rootKey [] ttl (some e) now).2
  ∧ (∀ st2 fk raw, isEncryptedWrapper raw = true →
        migrateStoredValueToEncrypted st2 fk raw (some e) = st2) := by
  have hpay : encPayload pv = none := by
    unfold isEncryptedWrapper at hplain
    cases hp : encPayload pv
    · rfl
    · rw [hp] at hplain; simp at hplain
  have hr1 : readStoredValue s ttl (some e) now = finishRead pv pv false ttl now := by
    unfold readStoredValue
    simp only [hparse, hpay]
  have hfr_exp := finishRead_expired_of pv pv false ttl now hexp
  have hmw : migrationWanted (some e) (finishRead pv pv false ttl now) = true := by
    simp [migrationWanted, hmig, finishRead_parseError, finishRead_wasEncrypted,
      finishRead_rawParsed, hnund]
  have hmigrate : migrateStoredValueToEncrypted st (pfx ++ rootKey) pv (some e)
      = { entries := putEntry st.entries (pfx ++ rootKey)
            (stringify (encryptedWrapperVal c)),
          setOk := true, writeCalls := st.writeCalls + 1 } := by
    simp [migrateStoredValueToEncrypted, hmig, hplain, henc, Store.setItem, hok]
  have hfirst : (getValueAtPath st pfx rootKey [] ttl (some e) now).2
      = { entries := putEntry st.entries (pfx ++ rootKey)
            (stringify (encryptedWrapperVal c)),
          setOk := true, writeCalls := st.writeCalls + 1 } := by
    unfold getValueAtPath
    simp only [hItem, hr1, hfr_exp, finishRead_decryptionError, Bool.or_self,
      Bool.false_eq_true, if_false, hmw, if_true, finishRead_rawParsed]
    exact hmigrate
  refine ⟨hfirst, ?_, ?_⟩
  · rw [hfirst]
    have hitem2 : Store.getItem
          { entries := putEntry st.entries (pfx ++ rootKey)
              (stringify (encryptedWrapperVal c)),
            setOk := true, writeCalls := st.writeCalls + 1 }
          (pfx ++ rootKey) = some (stringify (encryptedWrapperVal c)) := by
      simp [Store.getItem, lookupS_putEntry_self]
    have hr2 : readStoredValue (stringify (encryptedWrapperVal c)) ttl (some e) now
        = finishRead (encryptedWrapperVal c) pv true ttl now := by
      unfold readStoredValue
      simp only [show parse (stringify (encryptedWrapperVal c))
            = some (encryptedWrapperVal c) from rfl,
          show encPayload (encryptedWrapperVal c) = some c from rfl, hdec,
          parse_stringify pv hnund]
    have hmw2 : migrationWanted (some e)
        (finishRead (encryptedWrapperVal c) pv true ttl now) = false := by
      simp [migrationWanted, finishRead_wasEncrypted]
    unfold getValueAtPath
    simp only [hitem2, hr2, finishRead_expired_of _ pv true ttl now hexp,
      finishRead_decryptionError, Bool.or_self, Bool.false_eq_true, if_false,
      hmw2]
  · intro st2 fk raw hraw
    simp [migrateStoredValueToEncrypted, hraw]

/-- Claim C8 witness: a plain numeric entry under identity hooks with
migration on — the first read writes the envelope once, the second read
leaves the store as the first read left it. -/
theorem c8_migration_once_witness :
    (getValueAtPath samplePlainStore "" "k" [] none (some migHooks) 0).2
      = { entries := putEntry samplePlainStore.entries ("" ++ "k")
            (stringify (encryptedWrapperVal (stringify (.num 5)))),
          setOk := true, writeCalls := samplePlainStore.writeCalls + 1 }
  ∧ (getValueAtPath
        ((getValueAtPath samplePlainStore "" "k" [] none (some migHooks) 0).2)
        "" "k" [] none (some migHooks) 0).2
      = (getValueAtPath samplePlainStore "" "k" [] none (some migHooks) 0).2 :=
  ⟨(c8_migration_once samplePlainStore "" "k" none migHooks 0
      (stringify (.num 5)) (.num 5) (stringify (.num 5))
      rfl rfl rfl rfl rfl rfl rfl rfl rfl).1,
   (c8_migration_once samplePlainStore "" "k" none migHooks 0
      (stringify (.num 5)) (.num 5) (stringify (.num 5))
      rfl rfl rfl rfl rfl rfl rfl rfl rfl).2.1⟩

end Oto
